import Mathlib

/-!
Shallow embedding of `src/services/market_collector.py` (class `MarketCollector`):
the per-exchange fetch helpers `get_ticker` and `get_top_pairs`, the concurrent
fan-out `collect_all_exchanges`, and the aggregation/ranking pipeline
`get_market_pulse`.  Numeric ticker fields are modelled as rationals (the Python
code uses floats but performs only exact +, /, max and comparisons here);
Python dicts that the code iterates are modelled as insertion-ordered
association lists; a coroutine's possible failure is modelled explicitly.
The wall-clock `timestamp` field attached to each ticker is not modelled: no
arithmetic or control flow ever reads it.
-/

namespace MarketCollector

/-- One raw ticker as returned by the exchange library (`ccxt`).  A field whose
key is absent from the exchange's response is `none`; present fields are
numeric.  `symbol` is the key under which `fetch_tickers` lists the entry. -/
structure RawTicker where
  symbol : String
  last : Option ℚ
  quoteVolume : Option ℚ
  percentage : Option ℚ
  high : Option ℚ
  low : Option ℚ
  deriving DecidableEq

/-- The ticker record built by `get_ticker` / `get_top_pairs`: each raw field
is read with `ticker.get(key, 0)`, so an absent field becomes `0`. -/
structure Ticker where
  symbol : String
  price : ℚ
  volume_24h : ℚ
  change_24h : ℚ
  high_24h : ℚ
  low_24h : ℚ
  deriving DecidableEq

/-- The record-building common to `get_ticker` and the loop in `get_top_pairs`:
`price = ticker.get('last', 0)`, `volume_24h = ticker.get('quoteVolume', 0)`,
`change_24h = ticker.get('percentage', 0)`, and likewise for high/low. -/
def mkTicker (symbol : String) (raw : RawTicker) : Ticker :=
  { symbol := symbol
    price := raw.last.getD 0
    volume_24h := raw.quoteVolume.getD 0
    change_24h := raw.percentage.getD 0
    high_24h := raw.high.getD 0
    low_24h := raw.low.getD 0 }

/-- Outcome of one call into the exchange library: either the raw response, or
a raised exception (caught by the `try/except` inside the calling method). -/
inductive Fetched (α : Type) where
  | ok (val : α)
  | err
  deriving DecidableEq

/-- Embeds `MarketCollector.get_ticker`: returns `None` when the exchange name is not
a key of `self.exchanges` (failed initialization) or when `fetch_ticker`
raised; otherwise builds the ticker record for the requested symbol. -/
def get_ticker (member : Bool) (symbol : String) (fetch : Fetched RawTicker) :
    Option Ticker :=
  if member = false then none
  else
    match fetch with
    | .err => none
    | .ok raw => some (mkTicker symbol raw)

/-- Tests whether `pat` is a leading block of `l` (character-by-character). -/
def startsWithChars : List Char → List Char → Bool
  | [], _ => true
  | _ :: _, [] => false
  | p :: ps, c :: cs => p == c && startsWithChars ps cs

/-- Tests whether `pat` occurs contiguously somewhere in `l`: Python's substring test. -/
def occursIn (pat : List Char) : List Char → Bool
  | [] => startsWithChars pat []
  | c :: cs => startsWithChars pat (c :: cs) || occursIn pat cs

/-- The filter `'/USDT' in symbol` from `get_top_pairs`. -/
def hasUsdtQuote (symbol : String) : Bool :=
  occursIn "/USDT".toList symbol.toList

/-- The sort key `ticker.get('quoteVolume', 0)` of `get_top_pairs`. -/
def rawVolume (t : RawTicker) : ℚ := t.quoteVolume.getD 0

/-- The list-comprehension filter of `get_top_pairs`:
`'/USDT' in symbol and ticker.get('quoteVolume', 0) > 0`. -/
def goodRaw (t : RawTicker) : Bool :=
  hasUsdtQuote t.symbol && decide ((0 : ℚ) < rawVolume t)

/-- Comparator realising `sort(key=quoteVolume, reverse=True)`: `a` may come
before `b` exactly when `a`'s volume is at least `b`'s.  A stable sort with
this comparator is descending by volume, ties in original order, which is the
documented semantics of Python's stable `sort` with `reverse=True`. -/
def volumeDescRaw (a b : RawTicker) : Bool := rawVolume b ≤ rawVolume a

/-- Python list slicing `xs[:n]` for an `int` bound: a non-negative `n` keeps
the first `n` elements (clamped), a negative `n` drops the last `|n|` elements
(clamped at the empty list). -/
def pySliceTo {α : Type} (xs : List α) (n : Int) : List α :=
  if 0 ≤ n then xs.take n.toNat else xs.take (xs.length - (-n).toNat)

/-- Embeds `MarketCollector.get_top_pairs`: returns `[]` when the exchange is unknown
or `fetch_tickers` raised; otherwise filters USDT pairs with positive quote
volume, stably sorts them by volume descending, truncates to `limit`, and
builds a ticker record for each survivor. -/
def get_top_pairs (member : Bool) (fetch : Fetched (List RawTicker))
    (limit : Int) : List Ticker :=
  if member = false then []
  else
    match fetch with
    | .err => []
    | .ok tickers =>
        let usdt_pairs := tickers.filter goodRaw
        let sorted := usdt_pairs.mergeSort volumeDescRaw
        (pySliceTo sorted limit).map (fun t => mkTicker t.symbol t)

/-- What `asyncio.gather(..., return_exceptions=True)` records for one task:
the value the coroutine returned, or the exception object it raised. -/
inductive TaskOutcome (α : Type) where
  | value (val : α)
  | raised
  deriving DecidableEq

/-- One entry of `tasks_with_info` together with its gathered outcome: a
single-ticker task (`is_ticker = True`) or a top-pairs task. -/
inductive TaskInfo where
  | tick (exchange symbol : String) (outcome : TaskOutcome (Option Ticker))
  | top (exchange : String) (outcome : TaskOutcome (List Ticker))
  deriving DecidableEq

/-- The exchange name a task was created for. -/
def TaskInfo.exch : TaskInfo → String
  | .tick e _ _ => e
  | .top e _ => e

/-- The `results` dict of `collect_all_exchanges`, with insertion order. -/
abbrev ResultsMap := List (String × List Ticker)

/-- Python `exchange_name in results`. -/
def hasKey (m : ResultsMap) (k : String) : Bool :=
  m.any (fun p => p.1 == k)

/-- Performs `if exchange_name not in results: results[exchange_name] = []`. -/
def ensureKey (m : ResultsMap) (k : String) : ResultsMap :=
  if hasKey m k then m else m ++ [(k, [])]

/-- The per-entry effect of `results[k].extend(ts)`: the entry keyed `k` gets
`ts` appended, any other entry is untouched. -/
def extEntry (k : String) (ts : List Ticker) (p : String × List Ticker) :
    String × List Ticker :=
  if p.1 == k then (p.1, p.2 ++ ts) else p

/-- Performs `results[k].append(t)` / `results[k].extend(ts)` on an existing key. -/
def extendAt (m : ResultsMap) (k : String) (ts : List Ticker) : ResultsMap :=
  m.map (extEntry k ts)

/-- The result-processing loop body of `collect_all_exchanges`: an exception
outcome is skipped (`continue`), otherwise the exchange's entry is created if
absent and the task's tickers (one for `get_ticker`, a list for
`get_top_pairs`) are appended to it. -/
def processTask (m : ResultsMap) : TaskInfo → ResultsMap
  | .tick _ _ .raised => m
  | .tick e _ (.value r) =>
      let m' := ensureKey m e
      match r with
      | some t => extendAt m' e [t]
      | none => m'
  | .top _ .raised => m
  | .top e (.value ts) => extendAt (ensureKey m e) e ts

/-- The collector's state and the external world for one collection cycle:
the constructor's exchange list, the subset that initialized (keys of
`self.exchanges`), each exchange's library responses, and which gathered
coroutines raised instead of returning. -/
structure CycleEnv where
  exchange_names : List String
  initialized : List String
  fetchAllResp : String → Fetched (List RawTicker)
  tickResp : String → String → Fetched RawTicker
  topRaised : String → Bool
  tickRaised : String → String → Bool

/-- Gathered outcome of the `get_top_pairs(exchange_name, top_pairs_limit)`
task for one exchange. -/
def topOutcome (env : CycleEnv) (limit : Int) (e : String) :
    TaskOutcome (List Ticker) :=
  if env.topRaised e then .raised
  else .value (get_top_pairs (env.initialized.contains e) (env.fetchAllResp e) limit)

/-- Gathered outcome of the `get_ticker(exchange_name, symbol)` task. -/
def tickOutcome (env : CycleEnv) (e s : String) : TaskOutcome (Option Ticker) :=
  if env.tickRaised e s then .raised
  else .value (get_ticker (env.initialized.contains e) s (env.tickResp e s))

/-- The `tasks_with_info` list: one `get_ticker` task per (initialized
exchange, symbol) when explicit symbols are given (`if symbols:`), else one
`get_top_pairs` task per initialized exchange; exchanges in constructor
order, symbols in argument order. -/
def buildTasks (env : CycleEnv) (symbols : List String) (limit : Int) :
    List TaskInfo :=
  (env.exchange_names.filter (fun e => env.initialized.contains e)).flatMap
    (fun e =>
      if symbols.isEmpty then [TaskInfo.top e (topOutcome env limit e)]
      else symbols.map (fun s => TaskInfo.tick e s (tickOutcome env e s)))

/-- Embeds `MarketCollector.collect_all_exchanges`: gather all tasks, then fold the
result-processing loop over them starting from the empty dict.  An empty
`symbols` list plays the role of Python's `symbols=None`. -/
def collect_all_exchanges (env : CycleEnv) (symbols : List String)
    (top_pairs_limit : Int) : ResultsMap :=
  (buildTasks env symbols top_pairs_limit).foldl processTask []

/-- One contributing entry of `symbol_map[symbol]['exchanges']`. -/
structure ExchangeObs where
  exchange : String
  price : ℚ
  volume_24h : ℚ
  change_24h : ℚ
  deriving DecidableEq

/-- One value of `symbol_map`: the per-symbol consensus record. -/
structure SymbolAgg where
  symbol : String
  exchanges : List ExchangeObs
  avg_price : ℚ
  total_volume_24h : ℚ
  avg_change_24h : ℚ
  max_change_24h : ℚ
  deriving DecidableEq

/-- The fresh record created on first sight of a symbol. -/
def emptyAgg (symbol : String) : SymbolAgg :=
  { symbol := symbol, exchanges := [], avg_price := 0, total_volume_24h := 0
    avg_change_24h := 0, max_change_24h := 0 }

/-- The observation appended for one (exchange, ticker) pair. -/
def mkObs (exchange : String) (t : Ticker) : ExchangeObs :=
  { exchange := exchange, price := t.price, volume_24h := t.volume_24h
    change_24h := t.change_24h }

/-- The `symbol_map` dict of `get_market_pulse`, with insertion order. -/
abbrev SymbolMap := List (String × SymbolAgg)

/-- The in-place update for one (exchange, ticker) pair, applied to the entry
keyed by the ticker's symbol: append the observation and add the ticker's
volume into `total_volume_24h`; other entries are untouched. -/
def updEntry (exchange : String) (t : Ticker) (p : String × SymbolAgg) :
    String × SymbolAgg :=
  if p.1 == t.symbol then
    (p.1, { p.2 with
      exchanges := p.2.exchanges ++ [mkObs exchange t]
      total_volume_24h := p.2.total_volume_24h + t.volume_24h })
  else p

/-- Body of the double loop of `get_market_pulse`: create the symbol's record
if absent (`if symbol not in symbol_map:`), then apply `updEntry`. -/
def addObs (m : SymbolMap) (exchange : String) (t : Ticker) : SymbolMap :=
  let m' :=
    if m.any (fun p => p.1 == t.symbol) then m
    else m ++ [(t.symbol, emptyAgg t.symbol)]
  m'.map (updEntry exchange t)

/-- The observation-collection pass of `get_market_pulse`, folded over the
exchange→tickers mapping in its iteration order. -/
def buildSymbolMap (all_data : ResultsMap) : SymbolMap :=
  all_data.foldl (fun m p => p.2.foldl (fun m' t => addObs m' p.1 t) m) []

/-- Python's `max` over a list of numbers; the `[]` case never arises under
the `if data['exchanges']:` guard (Python would raise there). -/
def pyMax : List ℚ → ℚ
  | [] => 0
  | x :: xs => xs.foldl max x

/-- The averaging pass of `get_market_pulse`: under the `if data['exchanges']:`
guard, set the average price, average change and max change from the
observation list. -/
def finalizeAgg (d : SymbolAgg) : SymbolAgg :=
  if d.exchanges.isEmpty then d
  else
    let prices := d.exchanges.map (fun e => e.price)
    let changes := d.exchanges.map (fun e => e.change_24h)
    { d with
      avg_price := prices.sum / (prices.length : ℚ)
      avg_change_24h := changes.sum / (changes.length : ℚ)
      max_change_24h := pyMax changes }

/-- Observation collection followed by the averaging pass: the full
aggregation that `get_market_pulse` performs on the collected data. -/
def aggregate (all_data : ResultsMap) : SymbolMap :=
  (buildSymbolMap all_data).map (fun p => (p.1, finalizeAgg p.2))

/-- Comparator realising `sorted(key=total_volume_24h, reverse=True)`. -/
def volumeDescAgg (a b : SymbolAgg) : Bool :=
  b.total_volume_24h ≤ a.total_volume_24h

/-- Performs `sorted(symbol_map.values(), key=lambda x: x['total_volume_24h'],
reverse=True)`: a stable descending sort of the dict's values. -/
def pulseOrder (symbol_map : SymbolMap) : List SymbolAgg :=
  (symbol_map.map Prod.snd).mergeSort volumeDescAgg

/-- The ranking tail of `get_market_pulse`: sort, then `[:top_pairs_limit]`. -/
def rankPulse (symbol_map : SymbolMap) (limit : Int) : List SymbolAgg :=
  pySliceTo (pulseOrder symbol_map) limit

/-- Embeds `MarketCollector.get_market_pulse`: collect in top-pairs mode
(`symbols=None`), aggregate by symbol, sort by total volume descending and
truncate to `top_pairs_limit`. -/
def get_market_pulse (env : CycleEnv) (top_pairs_limit : Int) : List SymbolAgg :=
  rankPulse (aggregate (collect_all_exchanges env [] top_pairs_limit))
    top_pairs_limit

/-- Dict lookup in the collected results (`results.get(k)`): the value of the
first (hence, keys being unique, the only) entry with the given key. -/
def findVal : ResultsMap → String → Option (List Ticker)
  | [], _ => none
  | p :: tl, k => if p.1 == k then some p.2 else findVal tl k

/-- All (exchange, ticker) observations contained in the collected mapping,
in its iteration order. -/
def flattenObs (m : ResultsMap) : List (String × Ticker) :=
  m.flatMap (fun p => p.2.map (fun t => (p.1, t)))

/-- The observations for one symbol, in arrival order. -/
def obsListOf (l : List (String × Ticker)) (s : String) : List ExchangeObs :=
  (l.filter (fun q => q.2.symbol == s)).map (fun q => mkObs q.1 q.2)

/-- The tickers a given exchange contributes in explicit-symbol mode: one per
symbol whose gathered task returned an actual ticker. -/
def tickersOf (symbols : List String) (o : String → TaskOutcome (Option Ticker)) :
    List Ticker :=
  symbols.filterMap (fun s =>
    match o s with
    | .value (some t) => some t
    | _ => none)

/-- Whether a gathered outcome is an exception object
(`isinstance(result, Exception)`). -/
def isRaised {α : Type} : TaskOutcome α → Bool
  | .raised => true
  | .value _ => false

/-- The run of `get_ticker` tasks one exchange contributes in
explicit-symbol mode, in symbol order. -/
def tickBlock (e : String) (symbols : List String)
    (o : String → TaskOutcome (Option Ticker)) : List TaskInfo :=
  symbols.map (fun s => TaskInfo.tick e s (o s))

/-- The observation-collection pass as a single fold over the flattened
(exchange, ticker) stream. -/
def obsFold (l : List (String × Ticker)) : SymbolMap :=
  l.foldl (fun m q => addObs m q.1 q.2) []

/-- Exchange A's raw BTC/USDT ticker in the two-exchange scenario. -/
def rawBtcA : RawTicker :=
  { symbol := "BTC/USDT", last := some 50000, quoteVolume := some 100
    percentage := some 1, high := some 50100, low := some 49900 }

/-- Exchange B's raw BTC/USDT ticker in the two-exchange scenario. -/
def rawBtcB : RawTicker :=
  { symbol := "BTC/USDT", last := some 50010, quoteVolume := some 300
    percentage := some 3, high := some 50200, low := some 49800 }

/-- Two healthy exchanges A and B, each reporting one BTC/USDT ticker. -/
def envAB : CycleEnv :=
  { exchange_names := ["A", "B"]
    initialized := ["A", "B"]
    fetchAllResp := fun e => if e == "A" then .ok [rawBtcA] else .ok [rawBtcB]
    tickResp := fun _ _ => .err
    topRaised := fun _ => false
    tickRaised := fun _ _ => false }

/-- The consensus record the two-exchange scenario is expected to produce. -/
def btcAgg : SymbolAgg :=
  { symbol := "BTC/USDT"
    exchanges := [{ exchange := "A", price := 50000, volume_24h := 100, change_24h := 1 },
                  { exchange := "B", price := 50010, volume_24h := 300, change_24h := 3 }]
    avg_price := 50005
    total_volume_24h := 400
    avg_change_24h := 2
    max_change_24h := 3 }

/-- Exchange A's built BTC/USDT ticker record. -/
def tickA : Ticker :=
  { symbol := "BTC/USDT", price := 50000, volume_24h := 100, change_24h := 1
    high_24h := 50100, low_24h := 49900 }

/-- Exchange B's built BTC/USDT ticker record. -/
def tickB : Ticker :=
  { symbol := "BTC/USDT", price := 50010, volume_24h := 300, change_24h := 3
    high_24h := 50200, low_24h := 49800 }

/-- Collected results with exchange A's task completing first. -/
def resAB : ResultsMap := [("A", [tickA]), ("B", [tickB])]

/-- The same underlying observations with B's task completing first. -/
def resBA : ResultsMap := [("B", [tickB]), ("A", [tickA])]

/-- The consensus record produced when B's observation arrives first: same
numeric aggregates, observation list in the other order. -/
def btcAggRev : SymbolAgg :=
  { symbol := "BTC/USDT"
    exchanges := [{ exchange := "B", price := 50010, volume_24h := 300, change_24h := 3 },
                  { exchange := "A", price := 50000, volume_24h := 100, change_24h := 1 }]
    avg_price := 50005
    total_volume_24h := 400
    avg_change_24h := 2
    max_change_24h := 3 }

/-- Aggregated record for symbol ZZZ with total volume 5. -/
def aggZ : SymbolAgg :=
  { symbol := "ZZZ"
    exchanges := [{ exchange := "A", price := 1, volume_24h := 5, change_24h := 0 }]
    avg_price := 1, total_volume_24h := 5, avg_change_24h := 0, max_change_24h := 0 }

/-- Aggregated record for symbol AAA with the same total volume 5. -/
def aggA : SymbolAgg :=
  { symbol := "AAA"
    exchanges := [{ exchange := "B", price := 1, volume_24h := 5, change_24h := 0 }]
    avg_price := 1, total_volume_24h := 5, avg_change_24h := 0, max_change_24h := 0 }

/-- A symbol map holding two equal-volume symbols, inserted in descending
symbol order. -/
def smZA : SymbolMap := [("ZZZ", aggZ), ("AAA", aggA)]

/-- Two configured exchanges whose every `fetch_tickers` call raises. -/
def envFail : CycleEnv :=
  { exchange_names := ["A", "B"]
    initialized := ["A", "B"]
    fetchAllResp := fun _ => .err
    tickResp := fun _ _ => .err
    topRaised := fun _ => false
    tickRaised := fun _ _ => false }

/-- Exchange A's gathered tasks raise; exchange B reports BTC/USDT. -/
def envC5 : CycleEnv :=
  { exchange_names := ["A", "B"]
    initialized := ["A", "B"]
    fetchAllResp := fun _ => .err
    tickResp := fun e _ => if e == "B" then .ok rawBtcB else .err
    topRaised := fun _ => false
    tickRaised := fun e _ => e == "A" }

/-- Like `envC5`, but exchange A is healthy as well. -/
def envC5ok : CycleEnv :=
  { exchange_names := ["A", "B"]
    initialized := ["A", "B"]
    fetchAllResp := fun _ => .err
    tickResp := fun e _ => if e == "B" then .ok rawBtcB else .err
    topRaised := fun _ => false
    tickRaised := fun _ _ => false }

/-- The consensus record built from exchange B's lone observation. -/
def btcAggB : SymbolAgg :=
  { symbol := "BTC/USDT"
    exchanges := [{ exchange := "B", price := 50010, volume_24h := 300, change_24h := 3 }]
    avg_price := 50010
    total_volume_24h := 300
    avg_change_24h := 3
    max_change_24h := 3 }

/-- A healthy USDT-quoted raw ticker with volume 50. -/
def rawEth : RawTicker :=
  { symbol := "ETH/USDT", last := some 3000, quoteVolume := some 50
    percentage := some 2, high := some 3100, low := some 2900 }

/-- A raw ticker not quoted in USDT. -/
def rawEur : RawTicker :=
  { symbol := "BTC/EUR", last := some 46000, quoteVolume := some 10
    percentage := some 1, high := none, low := none }

/-- A USDT-quoted raw ticker with zero volume. -/
def rawZero : RawTicker :=
  { symbol := "XRP/USDT", last := some 1, quoteVolume := some 0
    percentage := some 0, high := none, low := none }

/-- A raw `fetch_tickers` response mixing good, misquoted and zero-volume
pairs. -/
def raws4 : List RawTicker := [rawEth, rawEur, rawZero, rawBtcA]

/-- The ticker record built from `rawEth`. -/
def ethTicker : Ticker :=
  { symbol := "ETH/USDT", price := 3000, volume_24h := 50, change_24h := 2
    high_24h := 3100, low_24h := 2900 }

/-- A raw response in which every field is absent. -/
def rawNone : RawTicker :=
  { symbol := "BTC/USDT", last := none, quoteVolume := none
    percentage := none, high := none, low := none }

/-- The all-zero ticker record that `rawNone` must produce. -/
def zeroTick : Ticker :=
  { symbol := "BTC/USDT", price := 0, volume_24h := 0, change_24h := 0
    high_24h := 0, low_24h := 0 }

/-- One initialized exchange whose single `get_ticker` task returns `None`
without raising (the inner `fetch_ticker` raised and was caught). -/
def envC10 : CycleEnv :=
  { exchange_names := ["A"]
    initialized := ["A"]
    fetchAllResp := fun _ => .err
    tickResp := fun _ _ => .err
    topRaised := fun _ => false
    tickRaised := fun _ _ => false }

/-- Invariant of the observation-collection pass: every entry is keyed by its
own symbol, has at least one observation, and its running total volume is the
sum of its observations' volumes. -/
def entryOk (p : String × SymbolAgg) : Prop :=
  p.2.symbol = p.1 ∧ p.2.exchanges ≠ [] ∧
    p.2.total_volume_24h = (p.2.exchanges.map (fun o => o.volume_24h)).sum

/-- What the averaging pass guarantees for every aggregated entry. -/
def aggOk (p : String × SymbolAgg) : Prop :=
  p.2.symbol = p.1 ∧ p.2.exchanges ≠ [] ∧
    p.2.avg_price =
      (p.2.exchanges.map (fun o => o.price)).sum / (p.2.exchanges.length : ℚ) ∧
    p.2.total_volume_24h = (p.2.exchanges.map (fun o => o.volume_24h)).sum ∧
    p.2.avg_change_24h =
      (p.2.exchanges.map (fun o => o.change_24h)).sum / (p.2.exchanges.length : ℚ) ∧
    p.2.max_change_24h = pyMax (p.2.exchanges.map (fun o => o.change_24h))

/-! Helper lemmas. -/

/-- A property preserved by every fold step holds of the fold's result. -/
theorem foldl_preserve {α β : Type} (f : β → α → β) (I : β → Prop)
    (hstep : ∀ b a, I b → I (f b a)) :
    ∀ (l : List α) (b : β), I b → I (l.foldl f b) := by
  intro l
  induction l with
  | nil => intro b hb; simpa using hb
  | cons a l ih =>
      intro b hb
      simpa using ih (f b a) (hstep b a hb)

theorem foldl_max_spec (l : List ℚ) :
    ∀ a : ℚ, a ≤ l.foldl max a ∧ (∀ x ∈ l, x ≤ l.foldl max a) ∧
      (l.foldl max a = a ∨ l.foldl max a ∈ l) := by
  induction l with
  | nil => intro a; simp
  | cons y l ih =>
      intro a
      obtain ⟨h1, h2, h3⟩ := ih (max a y)
      refine ⟨le_trans (le_max_left a y) h1, ?_, ?_⟩
      · intro x hx
        simp only [List.foldl_cons]
        rcases List.mem_cons.mp hx with rfl | hx
        · exact le_trans (le_max_right a x) h1
        · exact h2 x hx
      · simp only [List.foldl_cons]
        rcases h3 with h | h
        · rcases max_choice a y with hm | hm
          · exact Or.inl (h.trans hm)
          · exact Or.inr (by rw [h, hm]; exact List.mem_cons_self _ _)
        · exact Or.inr (List.mem_cons_of_mem _ h)

theorem pyMax_mem {l : List ℚ} (h : l ≠ []) : pyMax l ∈ l := by
  cases l with
  | nil => exact absurd rfl h
  | cons x xs =>
      rcases (foldl_max_spec xs x).2.2 with h' | h'
      · simp [pyMax, h']
      · exact List.mem_cons_of_mem _ (by simpa [pyMax] using h')

theorem le_pyMax {l : List ℚ} : ∀ x ∈ l, x ≤ pyMax l := by
  cases l with
  | nil => simp
  | cons y xs =>
      intro x hx
      rcases List.mem_cons.mp hx with rfl | hx
      · exact (foldl_max_spec xs x).1
      · exact (foldl_max_spec xs y).2.1 x hx

/-- Python's `max` over a list depends only on the multiset of elements. -/
theorem pyMax_perm {l1 l2 : List ℚ} (h : l1.Perm l2) : pyMax l1 = pyMax l2 := by
  rcases eq_or_ne l1 [] with rfl | h1
  · simp [h.nil_eq.symm]
  · have h2 : l2 ≠ [] := fun he => h1 (List.Perm.eq_nil (he ▸ h))
    exact le_antisymm
      (le_pyMax _ (h.mem_iff.mp (pyMax_mem h1)))
      (le_pyMax _ (h.mem_iff.mpr (pyMax_mem h2)))

theorem updEntry_pres {e : String} {t : Ticker} {p : String × SymbolAgg}
    (hp : entryOk p) : entryOk (updEntry e t p) := by
  by_cases hc : p.1 == t.symbol
  · obtain ⟨hs, hne, hv⟩ := hp
    simp only [updEntry, hc, if_pos]
    refine ⟨hs, by simp, ?_⟩
    simp [hv, mkObs]
  · simpa [updEntry, hc] using hp

theorem addObs_pres {m : SymbolMap} (e : String) (t : Ticker)
    (h : ∀ p ∈ m, entryOk p) : ∀ p ∈ addObs m e t, entryOk p := by
  intro q hq
  simp only [addObs] at hq
  rcases List.mem_map.mp hq with ⟨p, hp, rfl⟩
  by_cases hmem : m.any (fun p => p.1 == t.symbol)
  · rw [if_pos hmem] at hp
    exact updEntry_pres (h p hp)
  · rw [if_neg hmem] at hp
    rcases List.mem_append.mp hp with hp | hp
    · exact updEntry_pres (h p hp)
    · have hp' : p = (t.symbol, emptyAgg t.symbol) := by simpa using hp
      subst hp'
      simp [entryOk, updEntry, emptyAgg, mkObs]

theorem buildSymbolMap_inv (ad : ResultsMap) :
    ∀ p ∈ buildSymbolMap ad, entryOk p := by
  unfold buildSymbolMap
  refine foldl_preserve _ (fun m => ∀ p ∈ m, entryOk p) ?_ ad [] (by simp)
  intro m a hm
  exact foldl_preserve _ (fun m => ∀ p ∈ m, entryOk p)
    (fun m' t hm' => addObs_pres a.1 t hm') a.2 m hm

theorem aggregate_spec (ad : ResultsMap) : ∀ p ∈ aggregate ad, aggOk p := by
  intro q hq
  rcases List.mem_map.mp hq with ⟨p, hp, rfl⟩
  obtain ⟨hs, hne, hv⟩ := buildSymbolMap_inv ad p hp
  have hnemp : p.2.exchanges.isEmpty = false := by
    simpa [List.isEmpty_iff] using hne
  refine ⟨by simp [finalizeAgg, hnemp, hs], by simp [finalizeAgg, hnemp, hne], ?_, ?_, ?_, ?_⟩ <;>
    simp [finalizeAgg, hnemp, hv]

theorem pySliceTo_sublist {α : Type} (xs : List α) (n : Int) :
    (pySliceTo xs n).Sublist xs := by
  unfold pySliceTo
  split <;> exact List.take_sublist _ _

/-- Every record of the ranked pulse is a value of the aggregated map. -/
theorem mem_rankPulse {sm : SymbolMap} {limit : Int} {d : SymbolAgg}
    (h : d ∈ rankPulse sm limit) : ∃ s, (s, d) ∈ sm := by
  have h1 : d ∈ pulseOrder sm := (pySliceTo_sublist _ _).mem h
  have h2 : d ∈ sm.map Prod.snd :=
    (List.mergeSort_perm (sm.map Prod.snd) volumeDescAgg).mem_iff.mp h1
  rcases List.mem_map.mp h2 with ⟨p, hp, rfl⟩
  exact ⟨p.1, hp⟩

/-- Every record of the market pulse satisfies the aggregation contract. -/
theorem pulse_spec (env : CycleEnv) (limit : Int) :
    ∀ d ∈ get_market_pulse env limit,
      d.exchanges ≠ [] ∧
      d.avg_price =
        (d.exchanges.map (fun o => o.price)).sum / (d.exchanges.length : ℚ) ∧
      d.total_volume_24h = (d.exchanges.map (fun o => o.volume_24h)).sum ∧
      d.avg_change_24h =
        (d.exchanges.map (fun o => o.change_24h)).sum / (d.exchanges.length : ℚ) ∧
      d.max_change_24h = pyMax (d.exchanges.map (fun o => o.change_24h)) := by
  intro d hd
  rcases mem_rankPulse hd with ⟨s, hs⟩
  obtain ⟨_, h1, h2, h3, h4, h5⟩ := aggregate_spec _ _ hs
  exact ⟨h1, h2, h3, h4, h5⟩

theorem beq_comm_str (a b : String) : (a == b) = (b == a) := by
  rw [Bool.eq_iff_iff]
  simp only [beq_iff_eq]
  exact eq_comm

theorem buildSymbolMap_eq_obsFold (ad : ResultsMap) :
    buildSymbolMap ad = obsFold (flattenObs ad) := by
  have key : ∀ (ad : ResultsMap) (init : SymbolMap),
      ad.foldl (fun m p => p.2.foldl (fun m' t => addObs m' p.1 t) m) init =
        (flattenObs ad).foldl (fun m q => addObs m q.1 q.2) init := by
    intro ad
    induction ad with
    | nil => intro init; simp [flattenObs]
    | cons p tl ih =>
        intro init
        have hflat : flattenObs (p :: tl) =
            (p.2.map fun t => (p.1, t)) ++ flattenObs tl := by
          simp [flattenObs]
        rw [List.foldl_cons, hflat, List.foldl_append, List.foldl_map, ih]
  exact key ad []

theorem obsListOf_append (l : List (String × Ticker)) (q : String × Ticker)
    (s : String) :
    obsListOf (l ++ [q]) s =
      obsListOf l s ++ (if q.2.symbol == s then [mkObs q.1 q.2] else []) := by
  by_cases h : q.2.symbol == s <;>
    simp [obsListOf, List.filter_append, List.filter_cons, h]

theorem updEntry_fst (e : String) (t : Ticker) (p : String × SymbolAgg) :
    (updEntry e t p).1 = p.1 := by
  unfold updEntry; split <;> rfl

theorem addObs_fst (m : SymbolMap) (e : String) (t : Ticker) :
    (addObs m e t).map Prod.fst =
      if m.any (fun p => p.1 == t.symbol) then m.map Prod.fst
      else m.map Prod.fst ++ [t.symbol] := by
  simp only [addObs]
  split <;> simp [List.map_map, Function.comp_def, updEntry_fst]

theorem any_key (m : SymbolMap) (s : String) :
    m.any (fun p => p.1 == s) = (m.map Prod.fst).any (fun k => k == s) := by
  induction m with
  | nil => rfl
  | cons p tl ih => simp [ih]

theorem addObs_noKey {m : SymbolMap} {e : String} {t : Ticker} {s : String}
    (h : (addObs m e t).any (fun p => p.1 == s) = false) :
    m.any (fun p => p.1 == s) = false ∧ (t.symbol == s) = false := by
  rw [any_key, addObs_fst] at h
  by_cases hg : m.any (fun p => p.1 == t.symbol)
  · rw [if_pos hg, ← any_key] at h
    refine ⟨h, ?_⟩
    by_cases hts : t.symbol = s
    · exfalso
      rw [← hts] at h
      rw [h] at hg
      exact Bool.false_ne_true hg
    · simpa using hts
  · rw [if_neg hg, List.any_append] at h
    rcases Bool.or_eq_false_iff.mp h with ⟨h1, h2⟩
    rw [← any_key] at h1
    exact ⟨h1, by simpa using h2⟩

theorem finalizeAgg_exchanges (d : SymbolAgg) :
    (finalizeAgg d).exchanges = d.exchanges := by
  unfold finalizeAgg; split <;> rfl

/-- Each entry of the folded symbol map carries, in order, exactly the
observations whose ticker bears its symbol; and a symbol with no entry has no
observation in the stream. -/
theorem obsFold_spec (l : List (String × Ticker)) :
    (∀ p ∈ obsFold l, p.2.symbol = p.1 ∧ p.2.exchanges = obsListOf l p.1) ∧
    (∀ s, (obsFold l).any (fun p => p.1 == s) = false → obsListOf l s = []) := by
  induction l using List.reverseRecOn with
  | nil =>
      constructor
      · simp [obsFold]
      · intro s _; simp [obsListOf]
  | append_singleton l q ih =>
      obtain ⟨ih1, ih2⟩ := ih
      have hfold : obsFold (l ++ [q]) = addObs (obsFold l) q.1 q.2 := by
        simp [obsFold, List.foldl_append]
      have hupd : ∀ r ∈ obsFold l,
          (updEntry q.1 q.2 r).2.symbol = (updEntry q.1 q.2 r).1 ∧
          (updEntry q.1 q.2 r).2.exchanges =
            obsListOf (l ++ [q]) (updEntry q.1 q.2 r).1 := by
        intro r hro
        obtain ⟨hsym, hexch⟩ := ih1 r hro
        by_cases hc : r.1 == q.2.symbol
        · have hcs : (q.2.symbol == r.1) = true := by
            rw [beq_comm_str] at hc; exact hc
          constructor
          · simp [updEntry, hc, hsym]
          · rw [obsListOf_append]
            simp [updEntry, hc, hexch, hcs]
        · have hcs : (q.2.symbol == r.1) = false := by
            rw [beq_comm_str]; simpa using hc
          constructor
          · simp [updEntry, hc, hsym]
          · rw [obsListOf_append]
            simp [updEntry, hc, hexch, hcs]
      constructor
      · intro p hp
        rw [hfold] at hp
        simp only [addObs] at hp
        by_cases hg : (obsFold l).any (fun p => p.1 == q.2.symbol)
        · rw [if_pos hg] at hp
          rcases List.mem_map.mp hp with ⟨r, hro, rfl⟩
          exact hupd r hro
        · rw [if_neg hg] at hp
          rcases List.mem_map.mp hp with ⟨r, hr, rfl⟩
          rcases List.mem_append.mp hr with hro | hrn
          · exact hupd r hro
          · have hr' : r = (q.2.symbol, emptyAgg q.2.symbol) := by simpa using hrn
            subst hr'
            have hg' : (obsFold l).any (fun p => p.1 == q.2.symbol) = false :=
              Bool.eq_false_iff.mpr hg
            constructor
            · simp [updEntry, emptyAgg]
            · rw [obsListOf_append]
              simp [updEntry, emptyAgg, ih2 _ hg', mkObs]
      · intro s hs
        rw [hfold] at hs
        obtain ⟨h1, h2⟩ := addObs_noKey hs
        rw [obsListOf_append]
        simp [ih2 s h1, h2]

theorem aggregate_exchanges {ad : ResultsMap} {s : String} {a : SymbolAgg}
    (h : (s, a) ∈ aggregate ad) : a.exchanges = obsListOf (flattenObs ad) s := by
  rcases List.mem_map.mp h with ⟨p, hp, hpe⟩
  have h1 : p.1 = s := congrArg Prod.fst hpe
  have h2 : finalizeAgg p.2 = a := congrArg Prod.snd hpe
  have h3 := ((obsFold_spec (flattenObs ad)).1 p
    (by rw [← buildSymbolMap_eq_obsFold]; exact hp)).2
  rw [← h2, finalizeAgg_exchanges, h3, h1]

theorem extEntry_fst (e : String) (ts : List Ticker) (p : String × List Ticker) :
    (extEntry e ts p).1 = p.1 := by
  unfold extEntry; split <;> rfl

theorem findVal_cons_pos {p : String × List Ticker} {tl : ResultsMap} {k : String}
    (h : (p.1 == k) = true) : findVal (p :: tl) k = some p.2 := by
  simp [findVal, h]

theorem findVal_cons_neg {p : String × List Ticker} {tl : ResultsMap} {k : String}
    (h : (p.1 == k) = false) : findVal (p :: tl) k = findVal tl k := by
  simp [findVal, h]

theorem findVal_of_noKey {m : ResultsMap} {k : String}
    (h : hasKey m k = false) : findVal m k = none := by
  induction m with
  | nil => rfl
  | cons p tl ih =>
      simp only [hasKey, List.any_cons, Bool.or_eq_false_iff] at h
      rw [findVal_cons_neg h.1]
      exact ih (by simpa [hasKey] using h.2)

theorem findVal_of_hasKey {m : ResultsMap} {k : String}
    (h : hasKey m k = true) : ∃ l, findVal m k = some l := by
  induction m with
  | nil => simp [hasKey] at h
  | cons p tl ih =>
      by_cases hpk : (p.1 == k)
      · exact ⟨p.2, findVal_cons_pos hpk⟩
      · have hpk' : (p.1 == k) = false := Bool.eq_false_iff.mpr hpk
        rw [findVal_cons_neg hpk']
        apply ih
        simpa [hasKey, hpk'] using h

theorem findVal_append_single_ne {m : ResultsMap} {e k : String} (h : k ≠ e)
    (v : List Ticker) : findVal (m ++ [(e, v)]) k = findVal m k := by
  induction m with
  | nil =>
      have he : (((e, v)).1 == k) = false := by simpa using Ne.symm h
      rw [List.nil_append, findVal_cons_neg he]
  | cons p tl ih =>
      rw [List.cons_append]
      by_cases hpk : (p.1 == k)
      · rw [findVal_cons_pos hpk, findVal_cons_pos hpk]
      · have hpk' : (p.1 == k) = false := Bool.eq_false_iff.mpr hpk
        rw [findVal_cons_neg hpk', findVal_cons_neg hpk', ih]

theorem findVal_append_single_self {m : ResultsMap} {e : String}
    (h : hasKey m e = false) (v : List Ticker) :
    findVal (m ++ [(e, v)]) e = some v := by
  induction m with
  | nil => exact findVal_cons_pos (by simp)
  | cons p tl ih =>
      simp only [hasKey, List.any_cons, Bool.or_eq_false_iff] at h
      rw [List.cons_append, findVal_cons_neg h.1]
      exact ih (by simpa [hasKey] using h.2)

theorem findVal_ensureKey_ne {m : ResultsMap} {e k : String} (h : k ≠ e) :
    findVal (ensureKey m e) k = findVal m k := by
  unfold ensureKey
  split
  · rfl
  · exact findVal_append_single_ne h []

theorem findVal_ensureKey_self (m : ResultsMap) (e : String) :
    findVal (ensureKey m e) e = some ((findVal m e).getD []) := by
  unfold ensureKey
  by_cases hk : hasKey m e
  · rw [if_pos hk]
    rcases findVal_of_hasKey hk with ⟨l, hl⟩
    simp [hl]
  · have hk' : hasKey m e = false := Bool.eq_false_iff.mpr hk
    rw [if_neg hk, findVal_of_noKey hk']
    simpa using findVal_append_single_self hk' []

theorem findVal_extendAt_ne {m : ResultsMap} {e k : String} (ts : List Ticker)
    (h : k ≠ e) : findVal (extendAt m e ts) k = findVal m k := by
  induction m with
  | nil => rfl
  | cons p tl ih =>
      rw [show extendAt (p :: tl) e ts = extEntry e ts p :: extendAt tl e ts from rfl]
      by_cases hpk : (p.1 == k)
      · have hpe : (p.1 == e) = false := by
          have hp : p.1 = k := by simpa using hpk
          simpa [hp] using h
        have hpk2 : ((extEntry e ts p).1 == k) = true := by
          rw [extEntry_fst]; exact hpk
        rw [findVal_cons_pos hpk2, findVal_cons_pos hpk]
        simp [extEntry, hpe]
      · have hpk' : (p.1 == k) = false := Bool.eq_false_iff.mpr hpk
        have hpk2 : ((extEntry e ts p).1 == k) = false := by
          rw [extEntry_fst]; exact hpk'
        rw [findVal_cons_neg hpk2, findVal_cons_neg hpk', ih]

theorem findVal_extendAt_self (m : ResultsMap) (e : String) (ts : List Ticker) :
    findVal (extendAt m e ts) e = (findVal m e).map (fun l => l ++ ts) := by
  induction m with
  | nil => rfl
  | cons p tl ih =>
      rw [show extendAt (p :: tl) e ts = extEntry e ts p :: extendAt tl e ts from rfl]
      by_cases hpe : (p.1 == e)
      · have h2 : ((extEntry e ts p).1 == e) = true := by
          rw [extEntry_fst]; exact hpe
        rw [findVal_cons_pos h2, findVal_cons_pos hpe]
        simp [extEntry, hpe]
      · have hpe' : (p.1 == e) = false := Bool.eq_false_iff.mpr hpe
        have h2 : ((extEntry e ts p).1 == e) = false := by
          rw [extEntry_fst]; exact hpe'
        rw [findVal_cons_neg h2, findVal_cons_neg hpe', ih]

theorem findVal_processTask_ne {m : ResultsMap} {t : TaskInfo} {k : String}
    (h : t.exch ≠ k) : findVal (processTask m t) k = findVal m k := by
  cases t with
  | tick e s out =>
      cases out with
      | raised => rfl
      | value r =>
          have hk : k ≠ e := Ne.symm h
          cases r with
          | some t' =>
              simp only [processTask]
              rw [findVal_extendAt_ne _ hk, findVal_ensureKey_ne hk]
          | none =>
              simp only [processTask]
              rw [findVal_ensureKey_ne hk]
  | top e out =>
      cases out with
      | raised => rfl
      | value ts =>
          have hk : k ≠ e := Ne.symm h
          simp only [processTask]
          rw [findVal_extendAt_ne _ hk, findVal_ensureKey_ne hk]

theorem findVal_fold_ne {tasks : List TaskInfo} {k : String}
    (h : ∀ t ∈ tasks, t.exch ≠ k) (m : ResultsMap) :
    findVal (tasks.foldl processTask m) k = findVal m k := by
  induction tasks generalizing m with
  | nil => rfl
  | cons t tl ih =>
      rw [List.foldl_cons, ih (fun x hx => h x (List.mem_cons_of_mem _ hx))]
      exact findVal_processTask_ne (h t (List.mem_cons_self _ _))

/-- Effect of one exchange's run of `get_ticker` tasks on its own dict entry:
if the key existed, the run's surviving tickers are appended; if not, the key
is created unless every one of the run's outcomes was an exception. -/
theorem findVal_tickBlock (e : String) (o : String → TaskOutcome (Option Ticker)) :
    ∀ (symbols : List String) (m : ResultsMap),
      findVal ((tickBlock e symbols o).foldl processTask m) e =
        match findVal m e with
        | some l => some (l ++ tickersOf symbols o)
        | none =>
            if symbols.all (fun s => isRaised (o s)) then none
            else some (tickersOf symbols o) := by
  intro symbols
  induction symbols with
  | nil =>
      intro m
      cases h : findVal m e <;> simp [tickBlock, tickersOf, h]
  | cons s ss ih =>
      intro m
      have hblock : tickBlock e (s :: ss) o =
          TaskInfo.tick e s (o s) :: tickBlock e ss o := rfl
      rw [hblock, List.foldl_cons]
      cases hos : o s with
      | raised =>
          rw [show processTask m (TaskInfo.tick e s TaskOutcome.raised) = m from rfl]
          rw [ih m]
          have h1 : tickersOf (s :: ss) o = tickersOf ss o := by
            simp [tickersOf, hos]
          have h2 : (s :: ss).all (fun x => isRaised (o x)) =
              ss.all (fun x => isRaised (o x)) := by
            simp [hos, isRaised]
          rw [h1, h2]
      | value r =>
          cases r with
          | none =>
              rw [show processTask m (TaskInfo.tick e s (TaskOutcome.value none)) =
                ensureKey m e from rfl]
              rw [ih (ensureKey m e), findVal_ensureKey_self]
              have h1 : tickersOf (s :: ss) o = tickersOf ss o := by
                simp [tickersOf, hos]
              have h2 : (s :: ss).all (fun x => isRaised (o x)) = false := by
                simp [hos, isRaised]
              rw [h1, h2]
              cases hm : findVal m e <;> simp [hm]
          | some t =>
              rw [show processTask m (TaskInfo.tick e s (TaskOutcome.value (some t))) =
                extendAt (ensureKey m e) e [t] from rfl]
              rw [ih _, findVal_extendAt_self, findVal_ensureKey_self]
              have h1 : tickersOf (s :: ss) o = t :: tickersOf ss o := by
                simp [tickersOf, hos]
              have h2 : (s :: ss).all (fun x => isRaised (o x)) = false := by
                simp [hos, isRaised]
              rw [h1, h2]
              cases hm : findVal m e <;> simp [hm]

/-- Processing the task blocks of a duplicate-free exchange run: an exchange's
final dict entry is determined by its own task outcomes alone. -/
theorem findVal_flat_blocks (symbols : List String)
    (o : String → String → TaskOutcome (Option Ticker)) (e : String) :
    ∀ es : List String, es.Nodup → ∀ m : ResultsMap,
      (e ∈ es → findVal m e = none) →
      findVal ((es.flatMap (fun x => tickBlock x symbols (o x))).foldl processTask m) e =
        (if e ∈ es then
          (if symbols.all (fun s => isRaised (o e s)) then none
           else some (tickersOf symbols (o e)))
         else findVal m e) := by
  intro es
  induction es with
  | nil => intro _ m _; simp
  | cons x es ih =>
      intro hnd m hnone
      rw [List.flatMap_cons, List.foldl_append]
      by_cases hex : e = x
      · subst hex
        have hm0 : findVal m e = none := hnone (List.mem_cons_self _ _)
        have h1 : findVal ((tickBlock e symbols (o e)).foldl processTask m) e =
            (if symbols.all (fun s => isRaised (o e s)) then none
             else some (tickersOf symbols (o e))) := by
          rw [findVal_tickBlock e (o e) symbols m, hm0]
        have hrest : ∀ t ∈ es.flatMap (fun x => tickBlock x symbols (o x)),
            t.exch ≠ e := by
          intro t ht
          rcases List.mem_flatMap.mp ht with ⟨x', hx', ht'⟩
          rcases List.mem_map.mp ht' with ⟨s, _, rfl⟩
          intro hc
          exact (List.nodup_cons.mp hnd).1 (hc ▸ hx')
        rw [findVal_fold_ne hrest, h1, if_pos (List.mem_cons_self _ _)]
      · have h2 : ∀ t ∈ tickBlock x symbols (o x), t.exch ≠ e := by
          intro t ht
          rcases List.mem_map.mp ht with ⟨s, _, rfl⟩
          exact fun hc => hex hc.symm
        have hmid : findVal ((tickBlock x symbols (o x)).foldl processTask m) e =
            findVal m e := findVal_fold_ne h2 m
        rw [ih (List.nodup_cons.mp hnd).2 _
          (fun he => hmid.trans (hnone (List.mem_cons_of_mem _ he))), hmid]
        by_cases he : e ∈ es <;> simp [he, hex]

/-- Explicit-symbol collection, characterised per exchange: a configured,
initialized exchange ends up absent from the results exactly when every one of
its per-symbol tasks raised; otherwise its entry lists the tickers its
successful tasks returned, in symbol order.  Unconfigured or uninitialized
exchanges are always absent. -/
theorem findVal_collect_symbols (env : CycleEnv) {symbols : List String}
    (limit : Int) (hsym : symbols ≠ [])
    (hnd : (env.exchange_names.filter (fun x => env.initialized.contains x)).Nodup)
    (e : String) :
    findVal (collect_all_exchanges env symbols limit) e =
      if e ∈ env.exchange_names.filter (fun x => env.initialized.contains x) then
        (if symbols.all (fun s => isRaised (tickOutcome env e s)) then none
         else some (tickersOf symbols (tickOutcome env e)))
      else none := by
  have hne : symbols.isEmpty = false := by
    simpa [List.isEmpty_iff] using hsym
  have hbt : buildTasks env symbols limit =
      (env.exchange_names.filter (fun x => env.initialized.contains x)).flatMap
        (fun x => tickBlock x symbols (tickOutcome env x)) := by
    unfold buildTasks tickBlock
    simp [hne]
  unfold collect_all_exchanges
  rw [hbt]
  rw [findVal_flat_blocks symbols (tickOutcome env) e _ hnd [] (fun _ => rfl)]
  by_cases he : e ∈ env.exchange_names.filter (fun x => env.initialized.contains x) <;>
    simp [he, findVal]

theorem foldl_preserve_mem {α β : Type} (f : β → α → β) (I : β → Prop) :
    ∀ l : List α, (∀ b a, a ∈ l → I b → I (f b a)) → ∀ b, I b → I (l.foldl f b) := by
  intro l
  induction l with
  | nil => intro _ b hb; simpa using hb
  | cons a tl ih =>
      intro hstep b hb
      rw [List.foldl_cons]
      exact ih (fun b' a' ha' hb' => hstep b' a' (List.mem_cons_of_mem _ ha') hb')
        (f b a) (hstep b a (List.mem_cons_self _ _) hb)

theorem ensureKey_empty_vals {m : ResultsMap} (e : String)
    (h : ∀ p ∈ m, p.2 = ([] : List Ticker)) : ∀ p ∈ ensureKey m e, p.2 = [] := by
  intro p hp
  unfold ensureKey at hp
  split at hp
  · exact h p hp
  · rcases List.mem_append.mp hp with hp | hp
    · exact h p hp
    · have hp' : p = (e, []) := by simpa using hp
      simp [hp']

theorem extendAt_nil_vals {m : ResultsMap} (e : String)
    (h : ∀ p ∈ m, p.2 = ([] : List Ticker)) : ∀ p ∈ extendAt m e [], p.2 = [] := by
  intro p hp
  rcases List.mem_map.mp hp with ⟨q, hq, rfl⟩
  unfold extEntry
  split
  · simp [h q hq]
  · exact h q hq

/-- When every top-pairs task fails (its coroutine raised, or its adapter
returned no tickers), every entry of the collected mapping is empty. -/
theorem collect_top_all_empty (env : CycleEnv) (limit : Int)
    (h : ∀ e, topOutcome env limit e = .raised ∨
      topOutcome env limit e = .value []) :
    ∀ p ∈ collect_all_exchanges env [] limit, p.2 = [] := by
  unfold collect_all_exchanges
  refine foldl_preserve_mem processTask (fun m => ∀ p ∈ m, p.2 = []) _ ?_ [] (by simp)
  intro m t ht hm
  unfold buildTasks at ht
  rcases List.mem_flatMap.mp ht with ⟨x, hx, ht'⟩
  have ht'' : t = TaskInfo.top x (topOutcome env limit x) := by
    simpa using ht'
  subst ht''
  rcases h x with hx' | hx'
  · rw [hx']
    exact hm
  · rw [hx']
    exact extendAt_nil_vals x (ensureKey_empty_vals x hm)

theorem flattenObs_nil :
    ∀ ad : ResultsMap, (∀ p ∈ ad, p.2 = ([] : List Ticker)) → flattenObs ad = [] := by
  intro ad
  induction ad with
  | nil => intro _; rfl
  | cons p tl ih =>
      intro h
      have hp : p.2 = [] := h p (List.mem_cons_self _ _)
      have hsplit : flattenObs (p :: tl) =
          p.2.map (fun t => (p.1, t)) ++ flattenObs tl := by
        simp [flattenObs]
      rw [hsplit, hp]
      simpa using ih (fun q hq => h q (List.mem_cons_of_mem _ hq))

theorem aggregate_nil {ad : ResultsMap}
    (h : ∀ p ∈ ad, p.2 = ([] : List Ticker)) : aggregate ad = [] := by
  unfold aggregate
  rw [buildSymbolMap_eq_obsFold, flattenObs_nil ad h]
  rfl

theorem rankPulse_nil (limit : Int) : rankPulse [] limit = [] := by
  unfold rankPulse pulseOrder pySliceTo
  simp

theorem volumeDescAgg_trans : ∀ a b c : SymbolAgg,
    volumeDescAgg a b → volumeDescAgg b c → volumeDescAgg a c := by
  intro a b c
  simp only [volumeDescAgg, decide_eq_true_eq]
  exact fun h1 h2 => le_trans h2 h1

theorem volumeDescAgg_total : ∀ a b : SymbolAgg,
    volumeDescAgg a b || volumeDescAgg b a := by
  intro a b
  simp only [volumeDescAgg, Bool.or_eq_true, decide_eq_true_eq]
  exact le_total _ _

theorem volumeDescRaw_trans : ∀ a b c : RawTicker,
    volumeDescRaw a b → volumeDescRaw b c → volumeDescRaw a c := by
  intro a b c
  simp only [volumeDescRaw, decide_eq_true_eq]
  exact fun h1 h2 => le_trans h2 h1

theorem volumeDescRaw_total : ∀ a b : RawTicker,
    volumeDescRaw a b || volumeDescRaw b a := by
  intro a b
  simp only [volumeDescRaw, Bool.or_eq_true, decide_eq_true_eq]
  exact le_total _ _

theorem pairwise_of_mem {α : Type} {R : α → α → Prop} :
    ∀ l : List α, (∀ x ∈ l, ∀ y ∈ l, R x y) → l.Pairwise R := by
  intro l
  induction l with
  | nil => intro _; exact .nil
  | cons a tl ih =>
      intro h
      exact .cons
        (fun y hy => h a (List.mem_cons_self _ _) y (List.mem_cons_of_mem _ hy))
        (ih fun x hx y hy =>
          h x (List.mem_cons_of_mem _ hx) y (List.mem_cons_of_mem _ hy))

theorem pulseOrder_sorted (sm : SymbolMap) :
    (pulseOrder sm).Pairwise
      (fun a b : SymbolAgg => b.total_volume_24h ≤ a.total_volume_24h) := by
  have h := List.sorted_mergeSort volumeDescAgg_trans volumeDescAgg_total
    (sm.map Prod.snd)
  refine h.imp ?_
  intro a b hab
  simpa [volumeDescAgg] using hab

theorem rankPulse_sorted (sm : SymbolMap) (limit : Int) :
    (rankPulse sm limit).Pairwise
      (fun a b : SymbolAgg => b.total_volume_24h ≤ a.total_volume_24h) :=
  (pulseOrder_sorted sm).sublist (pySliceTo_sublist _ _)

theorem pulseOrder_length (sm : SymbolMap) :
    (pulseOrder sm).length = sm.length := by
  unfold pulseOrder
  rw [List.length_mergeSort, List.length_map]

theorem rankPulse_length (sm : SymbolMap) {limit : Int} (h : 0 ≤ limit) :
    (rankPulse sm limit).length = min limit.toNat sm.length := by
  unfold rankPulse pySliceTo
  rw [if_pos h, List.length_take, pulseOrder_length]

/-- Stability of the pulse sort: within one equal-volume class, the sorted
list keeps exactly the insertion order of the symbol map's values. -/
theorem pulseOrder_stable_filter (sm : SymbolMap) (v : ℚ) :
    (pulseOrder sm).filter (fun d => d.total_volume_24h == v) =
      (sm.map Prod.snd).filter (fun d => d.total_volume_24h == v) := by
  have hall : ∀ d ∈ (sm.map Prod.snd).filter (fun d => d.total_volume_24h == v),
      d.total_volume_24h = v := by
    intro d hd
    simpa using (List.mem_filter.mp hd).2
  have hpair : ((sm.map Prod.snd).filter
      (fun d => d.total_volume_24h == v)).Pairwise
        (fun a b => volumeDescAgg a b = true) := by
    refine pairwise_of_mem _ (fun x hx y hy => ?_)
    simp [volumeDescAgg, hall x hx, hall y hy]
  have hsubsort : ((sm.map Prod.snd).filter
      (fun d => d.total_volume_24h == v)).Sublist (pulseOrder sm) :=
    List.sublist_mergeSort volumeDescAgg_trans volumeDescAgg_total hpair
      (List.filter_sublist _)
  have hperm : ((pulseOrder sm).filter (fun d => d.total_volume_24h == v)).Perm
      ((sm.map Prod.snd).filter (fun d => d.total_volume_24h == v)) :=
    (List.mergeSort_perm (sm.map Prod.snd) volumeDescAgg).filter _
  have hc : ((sm.map Prod.snd).filter (fun d => d.total_volume_24h == v)).filter
      (fun d => d.total_volume_24h == v) =
        (sm.map Prod.snd).filter (fun d => d.total_volume_24h == v) := by
    refine List.filter_eq_self.mpr ?_
    intro a ha
    exact (List.mem_filter.mp ha).2
  have hsub2 : ((sm.map Prod.snd).filter
      (fun d => d.total_volume_24h == v)).Sublist
        ((pulseOrder sm).filter (fun d => d.total_volume_24h == v)) := by
    rw [← hc]
    exact hsubsort.filter _
  exact (hsub2.eq_of_length hperm.length_eq.symm).symm

theorem get_top_pairs_err (member : Bool) (limit : Int) :
    get_top_pairs member .err limit = [] := by
  cases member <;> rfl

theorem get_top_pairs_not_member (fetch : Fetched (List RawTicker)) (limit : Int) :
    get_top_pairs false fetch limit = [] := rfl

/-- Any adapter-level failure of a top-pairs task — gather saw the coroutine
raise, the exchange never initialized, or `fetch_tickers` raised inside the
adapter — leaves the task with either an exception outcome or no tickers. -/
theorem topOutcome_of_adapter_failure (env : CycleEnv) (limit : Int) (e : String)
    (h : env.topRaised e = true ∨ env.fetchAllResp e = .err ∨
      env.initialized.contains e = false) :
    topOutcome env limit e = .raised ∨ topOutcome env limit e = .value [] := by
  unfold topOutcome
  rcases h with h | h | h
  · left
    rw [h]
    rfl
  · by_cases hr : env.topRaised e
    · left
      rw [if_pos hr]
    · right
      rw [if_neg hr, h, get_top_pairs_err]
  · by_cases hr : env.topRaised e
    · left
      rw [if_pos hr]
    · right
      rw [if_neg hr, h, get_top_pairs_not_member]

theorem tickersOf_all_none {symbols : List String}
    {o : String → TaskOutcome (Option Ticker)}
    (h : ∀ s ∈ symbols, o s = .value none) : tickersOf symbols o = [] := by
  induction symbols with
  | nil => rfl
  | cons s ss ih =>
      have hs : o s = .value none := h s (List.mem_cons_self _ _)
      have : tickersOf (s :: ss) o = tickersOf ss o := by
        simp [tickersOf, hs]
      rw [this]
      exact ih (fun x hx => h x (List.mem_cons_of_mem _ hx))

/-- Claim C1: for every symbol bucket of the market pulse, average price and
average change are the arithmetic means of the contributing observations'
prices and percent changes, total volume is the exact sum of their volumes,
and max change is their maximum; in particular, for two BTC/USDT observations
with volumes 100 and 300, prices 50000 and 50010, changes 1 and 3, the
aggregate has total volume 400, average price 50005, average change 2 and
max change 3. -/
theorem c1_aggregate_mean_sum_max :
    (∀ (env : CycleEnv) (limit : Int), ∀ d ∈ get_market_pulse env limit,
      d.exchanges ≠ [] ∧
      d.avg_price =
        (d.exchanges.map (fun o => o.price)).sum / (d.exchanges.length : ℚ) ∧
      d.total_volume_24h = (d.exchanges.map (fun o => o.volume_24h)).sum ∧
      d.avg_change_24h =
        (d.exchanges.map (fun o => o.change_24h)).sum / (d.exchanges.length : ℚ) ∧
      d.max_change_24h = pyMax (d.exchanges.map (fun o => o.change_24h))) ∧
    get_market_pulse envAB 50 = [btcAgg] := by
  constructor
  · exact pulse_spec
  · simp [get_market_pulse, collect_all_exchanges, buildTasks, topOutcome, envAB,
      get_top_pairs, goodRaw, hasUsdtQuote, occursIn, startsWithChars, rawVolume,
      rawBtcA, rawBtcB, mkTicker, processTask, ensureKey, extendAt, extEntry, hasKey,
      aggregate, buildSymbolMap, addObs, updEntry, emptyAgg, mkObs, finalizeAgg, pyMax,
      rankPulse, pulseOrder, pySliceTo, volumeDescAgg, btcAgg]
    norm_num

/-- Witness for C1 at the concrete two-exchange scenario record. -/
theorem c1_witness :
    btcAgg.exchanges ≠ [] ∧
    btcAgg.avg_price =
      (btcAgg.exchanges.map (fun o => o.price)).sum / (btcAgg.exchanges.length : ℚ) ∧
    btcAgg.total_volume_24h = (btcAgg.exchanges.map (fun o => o.volume_24h)).sum ∧
    btcAgg.avg_change_24h =
      (btcAgg.exchanges.map (fun o => o.change_24h)).sum / (btcAgg.exchanges.length : ℚ) ∧
    btcAgg.max_change_24h = pyMax (btcAgg.exchanges.map (fun o => o.change_24h)) :=
  c1_aggregate_mean_sum_max.1 envAB 50 btcAgg
    (by rw [c1_aggregate_mean_sum_max.2]; exact List.mem_singleton.mpr rfl)

/-- Claim C6: every symbol present in the aggregated output has at least one
contributing exchange observation — no symbol entry is created without one,
so the averaging divisions are never over an empty list. -/
theorem c6_no_empty_buckets :
    (∀ ad : ResultsMap, ∀ p ∈ aggregate ad, p.2.exchanges ≠ []) ∧
    (∀ (env : CycleEnv) (limit : Int), ∀ d ∈ get_market_pulse env limit,
      d.exchanges ≠ []) := by
  constructor
  · intro ad p hp
    exact (aggregate_spec ad p hp).2.1
  · intro env limit d hd
    exact (pulse_spec env limit d hd).1

/-- Witness for C6 at the concrete two-exchange scenario. -/
theorem c6_witness : btcAgg.exchanges ≠ [] := by
  refine c6_no_empty_buckets.2 envAB 50 btcAgg ?_
  have heval : get_market_pulse envAB 50 = [btcAgg] := by
    simp [get_market_pulse, collect_all_exchanges, buildTasks, topOutcome, envAB,
      get_top_pairs, goodRaw, hasUsdtQuote, occursIn, startsWithChars, rawVolume,
      rawBtcA, rawBtcB, mkTicker, processTask, ensureKey, extendAt, extEntry, hasKey,
      aggregate, buildSymbolMap, addObs, updEntry, emptyAgg, mkObs, finalizeAgg, pyMax,
      rankPulse, pulseOrder, pySliceTo, volumeDescAgg, btcAgg]
    norm_num
  rw [heval]
  exact List.mem_singleton.mpr rfl

/-- Claim C2: for two collected mappings holding the same multiset of
(exchange, ticker) observations — any two task completion orders — each
symbol's aggregate numbers (average price, total volume, average change,
max change) coincide. -/
theorem c2_aggregation_perm_invariant (d1 d2 : ResultsMap)
    (hperm : (flattenObs d1).Perm (flattenObs d2)) (s : String)
    (a1 a2 : SymbolAgg) (h1 : (s, a1) ∈ aggregate d1)
    (h2 : (s, a2) ∈ aggregate d2) :
    a1.avg_price = a2.avg_price ∧
    a1.total_volume_24h = a2.total_volume_24h ∧
    a1.avg_change_24h = a2.avg_change_24h ∧
    a1.max_change_24h = a2.max_change_24h := by
  have e1 : a1.exchanges = obsListOf (flattenObs d1) s := aggregate_exchanges h1
  have e2 : a2.exchanges = obsListOf (flattenObs d2) s := aggregate_exchanges h2
  have hex : a1.exchanges.Perm a2.exchanges := by
    rw [e1, e2]
    unfold obsListOf
    exact (hperm.filter _).map _
  obtain ⟨_, _, hap1, htv1, hac1, hmc1⟩ := aggregate_spec d1 _ h1
  obtain ⟨_, _, hap2, htv2, hac2, hmc2⟩ := aggregate_spec d2 _ h2
  have hlen : a1.exchanges.length = a2.exchanges.length := hex.length_eq
  refine ⟨?_, ?_, ?_, ?_⟩
  · rw [hap1, hap2, (hex.map _).sum_eq, hlen]
  · rw [htv1, htv2, (hex.map _).sum_eq]
  · rw [hac1, hac2, (hex.map _).sum_eq, hlen]
  · rw [hmc1, hmc2, pyMax_perm (hex.map _)]

/-- Witness for C2: the two-exchange scenario collected in either completion
order yields the same aggregate numbers. -/
theorem c2_witness :
    btcAgg.avg_price = btcAggRev.avg_price ∧
    btcAgg.total_volume_24h = btcAggRev.total_volume_24h ∧
    btcAgg.avg_change_24h = btcAggRev.avg_change_24h ∧
    btcAgg.max_change_24h = btcAggRev.max_change_24h := by
  refine c2_aggregation_perm_invariant resAB resBA ?_ "BTC/USDT" btcAgg btcAggRev ?_ ?_
  · simpa [flattenObs, resAB, resBA] using
      List.Perm.swap (("B", tickB)) (("A", tickA)) ([] : List (String × Ticker))
  · have heval : aggregate resAB = [("BTC/USDT", btcAgg)] := by
      simp [aggregate, buildSymbolMap, addObs, updEntry, emptyAgg, mkObs,
        finalizeAgg, pyMax, resAB, tickA, tickB, btcAgg]
      norm_num
    rw [heval]
    exact List.mem_singleton.mpr rfl
  · have heval : aggregate resBA = [("BTC/USDT", btcAggRev)] := by
      simp [aggregate, buildSymbolMap, addObs, updEntry, emptyAgg, mkObs,
        finalizeAgg, pyMax, resBA, tickA, tickB, btcAggRev]
      norm_num
    rw [heval]
    exact List.mem_singleton.mpr rfl

/-- Counterexample to C3: two symbols with equal total volume, inserted as
"ZZZ" then "AAA".  The claimed ascending tie-break by symbol name demands
the AAA record first; the code's plain stable sort keeps insertion order and
returns the ZZZ record first. -/
theorem c3_counterexample :
    rankPulse smZA 2 = [aggZ, aggA] ∧
    aggZ.total_volume_24h = aggA.total_volume_24h ∧
    aggZ.symbol = "ZZZ" ∧ aggA.symbol = "AAA" ∧
    rankPulse smZA 2 ≠ [aggA, aggZ] := by
  have heval : rankPulse smZA 2 = [aggZ, aggA] := by
    simp [rankPulse, pulseOrder, pySliceTo, volumeDescAgg, smZA, aggZ, aggA,
      List.mergeSort]
  refine ⟨heval, by norm_num [aggZ, aggA], rfl, rfl, ?_⟩
  rw [heval]
  intro hcontra
  have : aggZ = aggA := (List.cons.injEq _ _ _ _ ▸ hcontra).1
  have hsym : aggZ.symbol = aggA.symbol := congrArg SymbolAgg.symbol this
  simp [aggZ, aggA] at hsym

/-- Claim C3 as amended: for every symbol map and limit N > 0 the ranked
pulse is sorted by total volume descending, its length is the minimum of N
and the number of distinct symbols, and — the sort being stable — records of
equal total volume keep the map's insertion order rather than being reordered
by symbol name. -/
theorem c3_amended_rank (sm : SymbolMap) (N : Int) (hN : 0 < N)
    (hkeys : (sm.map Prod.fst).Nodup) :
    (rankPulse sm N).Pairwise
      (fun a b : SymbolAgg => b.total_volume_24h ≤ a.total_volume_24h) ∧
    (rankPulse sm N).length = min N.toNat (sm.map Prod.fst).dedup.length ∧
    (∀ v : ℚ, (pulseOrder sm).filter (fun d => d.total_volume_24h == v) =
      (sm.map Prod.snd).filter (fun d => d.total_volume_24h == v)) := by
  refine ⟨rankPulse_sorted sm N, ?_, fun v => pulseOrder_stable_filter sm v⟩
  rw [rankPulse_length sm (le_of_lt hN), hkeys.dedup, List.length_map]

/-- Witness for the amended C3 at the two-symbol map with limit 2. -/
theorem c3_witness :
    (rankPulse smZA 2).Pairwise
      (fun a b : SymbolAgg => b.total_volume_24h ≤ a.total_volume_24h) ∧
    (rankPulse smZA 2).length =
      min (Int.toNat 2) (smZA.map Prod.fst).dedup.length ∧
    (pulseOrder smZA).filter (fun d => d.total_volume_24h == 5) =
      (smZA.map Prod.snd).filter (fun d => d.total_volume_24h == 5) :=
  ⟨(c3_amended_rank smZA 2 (by decide) (by decide)).1,
   (c3_amended_rank smZA 2 (by decide) (by decide)).2.1,
   (c3_amended_rank smZA 2 (by decide) (by decide)).2.2 5⟩

/-- Claim C4: when every exchange adapter fails — its gathered coroutine
raised, its `fetch_tickers` call raised, or the exchange never initialized —
the cycle still returns normally with an empty-collection result: every
mapping entry is an empty list and the market pulse is the empty list. -/
theorem c4_total_failure_empty_result (env : CycleEnv) (limit : Int)
    (h : ∀ e, env.topRaised e = true ∨ env.fetchAllResp e = .err ∨
      env.initialized.contains e = false) :
    (∀ p ∈ collect_all_exchanges env [] limit, p.2 = []) ∧
    get_market_pulse env limit = [] := by
  have h1 := collect_top_all_empty env limit
    (fun e => topOutcome_of_adapter_failure env limit e (h e))
  refine ⟨h1, ?_⟩
  unfold get_market_pulse
  rw [aggregate_nil h1, rankPulse_nil]

/-- Witness for C4: both exchanges' fetches raise; the pulse is empty. -/
theorem c4_witness : get_market_pulse envFail 50 = [] :=
  (c4_total_failure_empty_result envFail 50
    (fun _ => Or.inr (Or.inl rfl))).2

/-- Claim C5: an exchange's collected entry depends only on its own task
outcomes, so one exchange failing cannot reduce the data collected from the
others; in particular, with exchange A's tasks raising and exchange B
reporting BTC/USDT at volume 300, the aggregated output holds BTC/USDT with
exactly one contributing observation and total volume 300. -/
theorem c5_failure_isolation :
    (∀ (env1 env2 : CycleEnv) (symbols : List String) (limit : Int) (e : String),
      symbols ≠ [] →
      env1.exchange_names = env2.exchange_names →
      env1.initialized = env2.initialized →
      (env1.exchange_names.filter (fun x => env1.initialized.contains x)).Nodup →
      (∀ s, tickOutcome env1 e s = tickOutcome env2 e s) →
      findVal (collect_all_exchanges env1 symbols limit) e =
        findVal (collect_all_exchanges env2 symbols limit) e) ∧
    (aggregate (collect_all_exchanges envC5 ["BTC/USDT"] 50) =
      [("BTC/USDT", btcAggB)] ∧
     btcAggB.exchanges.length = 1 ∧ btcAggB.total_volume_24h = 300) := by
  constructor
  · intro env1 env2 symbols limit e hsym hn hi hnd hagree
    have hfun : tickOutcome env1 e = tickOutcome env2 e := funext hagree
    rw [findVal_collect_symbols env1 limit hsym hnd e,
      findVal_collect_symbols env2 limit hsym (by rw [← hn, ← hi]; exact hnd) e,
      hfun, hn, hi]
  · refine ⟨?_, rfl, by norm_num [btcAggB]⟩
    simp [aggregate, buildSymbolMap, addObs, updEntry, emptyAgg, mkObs,
      finalizeAgg, pyMax, collect_all_exchanges, buildTasks, tickOutcome,
      get_ticker, mkTicker, envC5, rawBtcB, processTask, ensureKey, extendAt,
      extEntry, hasKey, btcAggB]

/-- Witness for C5: exchange B's entry is the same whether exchange A's tasks
raise or succeed. -/
theorem c5_witness :
    findVal (collect_all_exchanges envC5 ["BTC/USDT"] 50) "B" =
      findVal (collect_all_exchanges envC5ok ["BTC/USDT"] 50) "B" :=
  c5_failure_isolation.1 envC5 envC5ok ["BTC/USDT"] 50 "B"
    (by simp) rfl rfl (by simp [envC5]) (fun s => by simp [tickOutcome, envC5, envC5ok])

/-- Counterexample to C7: no `ConfigurationError` (or any error path) exists;
at limit 0 — a value the claim calls invalid — `get_market_pulse` simply
returns the empty list, on the same cycle whose data at limit 50 is a
non-empty pulse. -/
theorem c7_counterexample :
    get_market_pulse envAB 0 = [] ∧ get_market_pulse envAB 50 = [btcAgg] := by
  constructor
  · have h0 : ∀ l : List SymbolAgg, pySliceTo l 0 = [] := by
      intro l
      simp [pySliceTo]
    unfold get_market_pulse rankPulse
    exact h0 _
  · simp [get_market_pulse, collect_all_exchanges, buildTasks, topOutcome, envAB,
      get_top_pairs, goodRaw, hasUsdtQuote, occursIn, startsWithChars, rawVolume,
      rawBtcA, rawBtcB, mkTicker, processTask, ensureKey, extendAt, extEntry, hasKey,
      aggregate, buildSymbolMap, addObs, updEntry, emptyAgg, mkObs, finalizeAgg, pyMax,
      rankPulse, pulseOrder, pySliceTo, volumeDescAgg, btcAgg]
    norm_num

/-- Claim C7 as amended: a limit N ≤ 0 is not rejected; Python slice
semantics apply to the sorted pulse list — the result is empty for N = 0 and
drops the last |N| records for N < 0. -/
theorem c7_amended_nonpositive_limit (env : CycleEnv) (N : Int) (hN : N ≤ 0) :
    get_market_pulse env N =
      (if N = 0 then ([] : List SymbolAgg)
       else (pulseOrder (aggregate (collect_all_exchanges env [] N))).take
         ((pulseOrder (aggregate (collect_all_exchanges env [] N))).length -
           (-N).toNat)) := by
  unfold get_market_pulse rankPulse pySliceTo
  by_cases h0 : N = 0
  · subst h0
    simp
  · have hneg : ¬(0 ≤ N) := by omega
    rw [if_neg hneg, if_neg h0]

/-- Witness for the amended C7 at limit -1. -/
theorem c7_witness :
    get_market_pulse envAB (-1) =
      (if (-1 : Int) = 0 then ([] : List SymbolAgg)
       else (pulseOrder (aggregate (collect_all_exchanges envAB [] (-1)))).take
         ((pulseOrder (aggregate (collect_all_exchanges envAB [] (-1)))).length -
           (-(-1 : Int)).toNat)) :=
  c7_amended_nonpositive_limit envAB (-1) (by decide)

/-- Claim C8: in `get_top_pairs` the quote-asset filter and the positive-
volume filter are applied before ranking and truncation: every returned
ticker is a USDT pair with positive 24h volume, the output is sorted by
volume descending, and its length is the minimum of the limit and the number
of pairs passing the filters (so filtering never happens after the cut). -/
theorem c8_top_pairs_filter_before_rank (raws : List RawTicker) (limit : Int)
    (h : 0 ≤ limit) :
    (∀ t ∈ get_top_pairs true (.ok raws) limit,
      hasUsdtQuote t.symbol = true ∧ 0 < t.volume_24h) ∧
    (get_top_pairs true (.ok raws) limit).Pairwise
      (fun a b : Ticker => b.volume_24h ≤ a.volume_24h) ∧
    (get_top_pairs true (.ok raws) limit).length =
      min limit.toNat (raws.filter goodRaw).length := by
  have hunf : get_top_pairs true (.ok raws) limit =
      (pySliceTo ((raws.filter goodRaw).mergeSort volumeDescRaw) limit).map
        (fun t => mkTicker t.symbol t) := rfl
  refine ⟨?_, ?_, ?_⟩
  · intro t ht
    rw [hunf] at ht
    rcases List.mem_map.mp ht with ⟨r, hr, rfl⟩
    have hr2 : r ∈ (raws.filter goodRaw).mergeSort volumeDescRaw :=
      (pySliceTo_sublist _ _).mem hr
    have hr3 : r ∈ raws.filter goodRaw := List.mem_mergeSort.mp hr2
    have hgood : goodRaw r = true := (List.mem_filter.mp hr3).2
    have h2 : hasUsdtQuote r.symbol = true ∧ 0 < rawVolume r := by
      simpa [goodRaw] using hgood
    exact ⟨h2.1, h2.2⟩
  · rw [hunf, List.pairwise_map]
    have hsorted := (List.sorted_mergeSort volumeDescRaw_trans volumeDescRaw_total
      (raws.filter goodRaw)).sublist
        (pySliceTo_sublist ((raws.filter goodRaw).mergeSort volumeDescRaw) limit)
    refine hsorted.imp ?_
    intro a b hab
    simpa [volumeDescRaw, mkTicker, rawVolume] using hab
  · rw [hunf, List.length_map]
    unfold pySliceTo
    rw [if_pos h, List.length_take, List.length_mergeSort]

/-- Witness for C8 on a four-ticker response (one good USDT pair, one
non-USDT pair, one zero-volume pair, one larger good pair) with limit 2. -/
theorem c8_witness :
    (hasUsdtQuote ethTicker.symbol = true ∧ 0 < ethTicker.volume_24h) ∧
    (get_top_pairs true (.ok raws4) 2).Pairwise
      (fun a b : Ticker => b.volume_24h ≤ a.volume_24h) ∧
    (get_top_pairs true (.ok raws4) 2).length =
      min (Int.toNat 2) (raws4.filter goodRaw).length := by
  have hmem : ethTicker ∈ get_top_pairs true (.ok raws4) 2 := by
    have heval : get_top_pairs true (.ok raws4) 2 =
        [mkTicker "BTC/USDT" rawBtcA, ethTicker] := by
      simp [get_top_pairs, goodRaw, hasUsdtQuote, occursIn, startsWithChars,
        rawVolume, raws4, rawEth, rawEur, rawZero, rawBtcA, mkTicker, ethTicker,
        pySliceTo, volumeDescRaw, List.mergeSort]
      norm_num [List.merge, volumeDescRaw, rawVolume, rawEth, rawBtcA, mkTicker,
        ethTicker]
    rw [heval]
    exact List.mem_cons_of_mem _ (List.mem_singleton.mpr rfl)
  exact ⟨(c8_top_pairs_filter_before_rank raws4 2 (by decide)).1 ethTicker hmem,
    (c8_top_pairs_filter_before_rank raws4 2 (by decide)).2.1,
    (c8_top_pairs_filter_before_rank raws4 2 (by decide)).2.2⟩

/-- Claim C9: on a successful single-ticker fetch every raw field absent from
the exchange response becomes 0 in the built record, and every present field
is passed through unchanged — the record's numeric fields are plain numbers,
so no null enters the downstream arithmetic. -/
theorem c9_missing_fields_default_zero (symbol : String) (raw : RawTicker)
    (t : Ticker) (h : get_ticker true symbol (.ok raw) = some t) :
    t.symbol = symbol ∧
    (raw.last = none → t.price = 0) ∧
    (∀ v, raw.last = some v → t.price = v) ∧
    (raw.quoteVolume = none → t.volume_24h = 0) ∧
    (∀ v, raw.quoteVolume = some v → t.volume_24h = v) ∧
    (raw.percentage = none → t.change_24h = 0) ∧
    (∀ v, raw.percentage = some v → t.change_24h = v) ∧
    (raw.high = none → t.high_24h = 0) ∧
    (∀ v, raw.high = some v → t.high_24h = v) ∧
    (raw.low = none → t.low_24h = 0) ∧
    (∀ v, raw.low = some v → t.low_24h = v) := by
  have ht : mkTicker symbol raw = t := Option.some.inj h
  subst ht
  refine ⟨rfl, ?_, ?_, ?_, ?_, ?_, ?_, ?_, ?_, ?_, ?_⟩ <;>
    first
      | (intro hv; simp [mkTicker, hv])
      | (intro v hv; simp [mkTicker, hv])

/-- Witness for C9 at a raw response with every field absent. -/
theorem c9_witness :
    zeroTick.symbol = "BTC/USDT" ∧
    (rawNone.last = none → zeroTick.price = 0) ∧
    (∀ v, rawNone.last = some v → zeroTick.price = v) ∧
    (rawNone.quoteVolume = none → zeroTick.volume_24h = 0) ∧
    (∀ v, rawNone.quoteVolume = some v → zeroTick.volume_24h = v) ∧
    (rawNone.percentage = none → zeroTick.change_24h = 0) ∧
    (∀ v, rawNone.percentage = some v → zeroTick.change_24h = v) ∧
    (rawNone.high = none → zeroTick.high_24h = 0) ∧
    (∀ v, rawNone.high = some v → zeroTick.high_24h = v) ∧
    (rawNone.low = none → zeroTick.low_24h = 0) ∧
    (∀ v, rawNone.low = some v → zeroTick.low_24h = v) :=
  c9_missing_fields_default_zero "BTC/USDT" rawNone zeroTick rfl

/-- Claim C10: in explicit-symbol mode an initialized, configured exchange
whose every `get_ticker` task returned `None` without raising still appears
in the collected mapping, bound to the empty list; and an exchange can be
absent only by being unconfigured or uninitialized, or by every one of its
gathered tasks having raised. -/
theorem c10_silent_failure_keeps_key (env : CycleEnv) (symbols : List String)
    (limit : Int) (e : String) (hsym : symbols ≠ [])
    (hnd : (env.exchange_names.filter (fun x => env.initialized.contains x)).Nodup) :
    ((e ∈ env.exchange_names.filter (fun x => env.initialized.contains x)) →
      (∀ s ∈ symbols, tickOutcome env e s = .value none) →
      findVal (collect_all_exchanges env symbols limit) e = some []) ∧
    (findVal (collect_all_exchanges env symbols limit) e = none →
      e ∉ env.exchange_names.filter (fun x => env.initialized.contains x) ∨
        ∀ s ∈ symbols, tickOutcome env e s = .raised) := by
  constructor
  · intro hmem hall
    rw [findVal_collect_symbols env limit hsym hnd e, if_pos hmem]
    have hraised : symbols.all (fun s => isRaised (tickOutcome env e s)) = false := by
      cases symbols with
      | nil => exact absurd rfl hsym
      | cons s0 ss =>
          have h0 : tickOutcome env e s0 = .value none :=
            hall s0 (List.mem_cons_self _ _)
          simp [List.all_cons, h0, isRaised]
    rw [hraised, if_neg (by simp)]
    rw [tickersOf_all_none hall]
  · intro habs
    by_cases hmem : e ∈ env.exchange_names.filter (fun x => env.initialized.contains x)
    · right
      rw [findVal_collect_symbols env limit hsym hnd e, if_pos hmem] at habs
      by_cases hall : symbols.all (fun s => isRaised (tickOutcome env e s))
      · intro s hs
        have hsr := List.all_eq_true.mp hall s hs
        cases hout : tickOutcome env e s with
        | value v =>
            rw [hout] at hsr
            exact absurd hsr (by simp [isRaised])
        | raised => rfl
      · rw [if_neg hall] at habs
        exact absurd habs (by simp)
    · exact Or.inl hmem

/-- Witness for C10: one initialized exchange whose single task returned
`None` keeps its key, bound to the empty list. -/
theorem c10_witness :
    findVal (collect_all_exchanges envC10 ["BTC/USDT"] 50) "A" = some [] := by
  refine (c10_silent_failure_keeps_key envC10 ["BTC/USDT"] 50 "A"
    (by simp) (by simp [envC10])).1 (by simp [envC10]) ?_
  intro s hs
  have hs' : s = "BTC/USDT" := by simpa using hs
  subst hs'
  rfl

end MarketCollector
